import Mathlib

/-! The prepare checker of the scheduler (`pkg/schedule/prepare_checker.go`).

A shallow embedding of `prepareChecker` and its operations `check`, `Collect`,
`IsPrepared`, `SetPrepared` and `GetSum`, followed by theorems about them.

Modelling conventions.

* The receiver `*prepareChecker` is mutated in place in Go; here every operation
  takes the state and returns the new state (and the returned value, if any).
* The embedded `syncutil.RWMutex` serialises the operations; the model is the
  sequential behaviour of one operation holding the lock.
* Go `int` is the 64-bit signed integer of the platforms the server runs on. A
  counter holds an integer, and `++` wraps around from `maxInt64` to `minInt64`
  (`wrapInt64`). Store ids (`uint64`) are `Nat`; no arithmetic is done on them.
* `time.Time` and `time.Duration` are integers (nanoseconds); the clock reading
  is an argument of `check`.
* `float64` is modelled by `F64` below: conversion from `int`, multiplication and
  the comparison `>` with IEEE-754 binary64 rounding (round to nearest, ties to
  even).
* `log.Info` has no effect on the state or on the result and is left out.
* The code only tests `x > y` on `float64` values. Where a statement below says
  that `x` does not exceed `y`, it is written `F64.gt x y = false`, the test of
  the code failing; this follows from `x <= y` and also covers not-a-number.
-/

namespace Schedule

/-! ## float64 -/

/-- A `float64` value: not-a-number, an infinity with its sign, or the finite
value `m * 2 ^ e`. The two zeros are not told apart (they compare equal, and
only the sign of a zero product depends on them). -/
inductive F64 where
  | nan : F64
  | inf (negative : Bool) : F64
  | fin (m : Int) (e : Int) : F64
  deriving DecidableEq

namespace F64

/-- Binary digits of `n`, counted by halving at most `fuel` times. -/
def bitLengthAux : Nat → Nat → Nat
  | 0, _ => 0
  | fuel + 1, n => if n = 0 then 0 else bitLengthAux fuel (n / 2) + 1

/-- Number of binary digits of a natural number (`0` for `0`); `n` halvings
always reach `0`. -/
def bitLength (n : Nat) : Nat := bitLengthAux n n

/-- Round the exact value `m * 2 ^ e` to binary64: 53 significant bits, least
exponent `-1074` (subnormal numbers), round to nearest with ties to even, and
overflow to an infinity from `2 ^ 1024` on. When no bit has to be dropped the
value is kept as `m * 2 ^ e`; otherwise the `k` lowest bits are dropped and the
quotient `q` is rounded up when the remainder `r` is above half, or is half and
`q` is odd. -/
def round (m : Int) (e : Int) : F64 :=
  let a := m.natAbs
  let target := max (e + (bitLength a : Int) - 53) (-1074)
  if m = 0 then fin 0 0
  else if target ≤ e then
    if e + (bitLength a : Int) > 1024 then inf (decide (m < 0)) else fin m e
  else
    let k := (target - e).toNat
    let q := a / 2 ^ k
    let r := a % 2 ^ k
    let half := 2 ^ (k - 1)
    let q1 := if half < r ∨ (r = half ∧ q % 2 = 1) then q + 1 else q
    if target + (bitLength q1 : Int) > 1024 then inf (decide (m < 0))
    else fin (if m < 0 then -(q1 : Int) else (q1 : Int)) target

/-- The conversion `float64(n)` of an integer. -/
def ofInt (n : Int) : F64 := round n 0

/-- The product `x * y` of two `float64` values. -/
def mul : F64 → F64 → F64
  | nan, _ => nan
  | _, nan => nan
  | inf s, inf t => inf (xor s t)
  | inf s, fin m _ => if m = 0 then nan else inf (xor s (decide (m < 0)))
  | fin m _, inf t => if m = 0 then nan else inf (xor (decide (m < 0)) t)
  | fin m1 e1, fin m2 e2 => round (m1 * m2) (e1 + e2)

/-- The comparison `x > y` of two `float64` values; false when either is
not-a-number. -/
def gt : F64 → F64 → Bool
  | nan, _ => false
  | _, nan => false
  | inf s, inf t => !s && t
  | inf s, fin _ _ => !s
  | fin _ _, inf t => t
  | fin m1 e1, fin m2 e2 =>
    let e := min e1 e2
    decide (m2 * 2 ^ (e2 - e).toNat < m1 * 2 ^ (e1 - e).toNat)

end F64

/-! ## Collaborators from `pkg/core` and the package constants -/

/-- Modelled from the spec: `core.StoreInfo` is declared in `pkg/core`; the
checker reads its id and whether it is preparing (joining) or serving (active). -/
structure StoreInfo where
  GetID : Nat
  IsPreparing : Bool
  IsServing : Bool
  deriving DecidableEq

/-- Modelled from the spec: `core.BasicCluster` is declared in `pkg/core`; the
checker reads the total region count, the count of regions not loaded from
storage, the stores, and the region count of a store given its id. -/
structure BasicCluster where
  GetClusterNotFromStorageRegionsCnt : Int
  GetTotalRegionCount : Int
  GetStores : List StoreInfo
  GetStoreRegionCount : Nat → Int

/-- Modelled from the spec: a peer of a region (`metapb.Peer`), of which the
checker reads the store id. -/
structure Peer where
  GetStoreId : Nat
  deriving DecidableEq

/-- Modelled from the spec: `core.RegionInfo` is declared in `pkg/core`; the
checker reads its peers. -/
structure RegionInfo where
  GetPeers : List Peer
  deriving DecidableEq

/-- Modelled from the spec: the package constants `collectTimeout` (a duration)
and `collectFactor` (a `float64`) are declared in another file of the package. -/
structure Config where
  collectTimeout : Int
  collectFactor : F64

/-- The duration `time.Since(start)` when the clock reads `now`. -/
def timeSince (now start : Int) : Int := now - start

/-! ## The type `int` -/

/-- The greatest value of a Go `int`, `2 ^ 63 - 1`. -/
def maxInt64 : Int := 9223372036854775807

/-- The least value of a Go `int`, `- 2 ^ 63`. -/
def minInt64 : Int := -9223372036854775808

/-- The value a Go `int` holds when the exact result of an operation is `x`:
two's complement wrap-around to 64 bits. -/
def wrapInt64 (x : Int) : Int :=
  (x + 9223372036854775808) % 18446744073709551616 - 9223372036854775808

/-! ## The map `map[uint64]int` -/

/-- A Go map from store ids to counters: `none` for an absent key. -/
abbrev RegionMap := Nat → Option Int

/-- The read `m[k]`: the zero value when the key is absent. -/
def RegionMap.get (m : RegionMap) (k : Nat) : Int := (m k).getD 0

/-- The statement `m[k]++`: the key is present afterwards. -/
def RegionMap.incr (m : RegionMap) (k : Nat) : RegionMap :=
  fun j => if j = k then some (wrapInt64 (m.get k + 1)) else m j

/-! ## The checker -/

/-- The struct `prepareChecker` without its lock. -/
structure prepareChecker where
  reactiveRegions : RegionMap
  start : Int
  sum : Int
  prepared : Bool

/-- The constructor `newPrepareChecker`, the clock reading `now`. -/
def newPrepareChecker (now : Int) : prepareChecker :=
  { start := now, reactiveRegions := fun _ => none, sum := 0, prepared := false }

namespace prepareChecker

/-- The loop `for _, store := range c.GetStores()` of `check` over the stores
still to visit: `false` when the loop body returns false, `true` when the loop
runs to its end. -/
def checkStores (cfg : Config) (checker : prepareChecker) (c : BasicCluster) :
    List StoreInfo → Bool
  | [] => true
  | store :: rest =>
    if !store.IsPreparing && !store.IsServing then
      checkStores cfg checker c rest
    else
      let storeID := store.GetID
      if F64.gt (F64.mul (F64.ofInt (c.GetStoreRegionCount storeID)) cfg.collectFactor)
          (F64.ofInt (checker.reactiveRegions.get storeID)) then
        false
      else
        checkStores cfg checker c rest

/-- The method `check`: the returned boolean and the checker afterwards. -/
def check (cfg : Config) (now : Int) (checker : prepareChecker) (c : BasicCluster) :
    Bool × prepareChecker :=
  if checker.prepared then
    (true, checker)
  else if timeSince now checker.start > cfg.collectTimeout then
    (true, { checker with prepared := true })
  else
    let notLoadedFromRegionsCnt := c.GetClusterNotFromStorageRegionsCnt
    let totalRegionsCnt := c.GetTotalRegionCount
    if F64.gt (F64.ofInt notLoadedFromRegionsCnt)
        (F64.mul (F64.ofInt totalRegionsCnt) cfg.collectFactor) then
      (true, { checker with prepared := true })
    else if F64.gt (F64.mul (F64.ofInt totalRegionsCnt) cfg.collectFactor)
        (F64.ofInt checker.sum) then
      (false, checker)
    else if checkStores cfg checker c c.GetStores then
      (true, { checker with prepared := true })
    else
      (false, checker)

/-- The method `Collect`. -/
def Collect (checker : prepareChecker) (region : RegionInfo) : prepareChecker :=
  { checker with
    reactiveRegions :=
      region.GetPeers.foldl (fun m p => m.incr p.GetStoreId) checker.reactiveRegions
    sum := wrapInt64 (checker.sum + 1) }

/-- The method `IsPrepared`. -/
def IsPrepared (checker : prepareChecker) : Bool := checker.prepared

/-- The method `SetPrepared`. -/
def SetPrepared (checker : prepareChecker) : prepareChecker :=
  { checker with prepared := true }

/-- The method `GetSum`. -/
def GetSum (checker : prepareChecker) : Int := checker.sum

end prepareChecker

/-! ## Sequences of calls -/

/-- One call on a checker, with its arguments. -/
inductive Call where
  | Collect (region : RegionInfo) : Call
  | check (now : Int) (c : BasicCluster) : Call
  | IsPrepared : Call
  | SetPrepared : Call
  | GetSum : Call

/-- What a call returns. -/
inductive Ret where
  | none : Ret
  | bool (b : Bool) : Ret
  | int (n : Int) : Ret
  deriving DecidableEq

/-- Whether the call is `check` or `IsPrepared`. -/
def Call.isQuery : Call → Bool
  | .check _ _ => true
  | .IsPrepared => true
  | _ => false

/-- Run one call: the checker afterwards and the returned value. -/
def step (cfg : Config) (checker : prepareChecker) : Call → prepareChecker × Ret
  | .Collect region => (checker.Collect region, Ret.none)
  | .check now c => ((checker.check cfg now c).2, Ret.bool (checker.check cfg now c).1)
  | .IsPrepared => (checker, Ret.bool checker.IsPrepared)
  | .SetPrepared => (checker.SetPrepared, Ret.none)
  | .GetSum => (checker, Ret.int checker.GetSum)

/-- Run a sequence of calls in order: the final checker and, for each call in
order, the call with the value it returned. -/
def run (cfg : Config) (checker : prepareChecker) :
    List Call → prepareChecker × List (Call × Ret)
  | [] => (checker, [])
  | call :: calls =>
    let r := step cfg checker call
    let rest := run cfg r.1 calls
    (rest.1, (call, r.2) :: rest.2)

/-! ## Inputs used in the examples -/

/-- The `float64` nearest to `0.1`, as `3602879701896397 * 2 ^ (-55)`. -/
def tenth : F64 := F64.fin 3602879701896397 (-55)

/-- A configuration with factor `0.1` and a timeout of five minutes. -/
def cfgTenth : Config := { collectTimeout := 300000000000, collectFactor := tenth }

/-- A serving store with id `1`. -/
def servingStore : StoreInfo := { GetID := 1, IsPreparing := false, IsServing := true }

/-- A store with id `2` that is neither preparing nor serving. -/
def removedStore : StoreInfo := { GetID := 2, IsPreparing := false, IsServing := false }

/-- A cluster of 100 regions, `notLoaded` of them not loaded from storage, with
the given stores, each store holding 20 regions. -/
def viewOf (notLoaded : Int) (stores : List StoreInfo) : BasicCluster :=
  { GetClusterNotFromStorageRegionsCnt := notLoaded
    GetTotalRegionCount := 100
    GetStores := stores
    GetStoreRegionCount := fun _ => 20 }

/-- A checker started at time `0`, not prepared, that has collected `sum`
regions, `onStore` of them on store `1` and none elsewhere. -/
def collected (sum onStore : Int) : prepareChecker :=
  { reactiveRegions := fun k => if k = 1 then some onStore else none
    start := 0
    sum := sum
    prepared := false }

/-- A region with one peer on store `1` and one on store `2`. -/
def regionOnBoth : RegionInfo := { GetPeers := [{ GetStoreId := 1 }, { GetStoreId := 2 }] }

/-- A region with its three peers on stores `2`, `3` and `2`. -/
def regionTwice : RegionInfo :=
  { GetPeers := [{ GetStoreId := 2 }, { GetStoreId := 3 }, { GetStoreId := 2 }] }

/-- A cluster like `viewOf 0 [servingStore]` that also lists the store `2`,
neither preparing nor serving, holding 1000 regions. -/
def viewWithRemoved : BasicCluster :=
  { GetClusterNotFromStorageRegionsCnt := 0
    GetTotalRegionCount := 100
    GetStores := [removedStore, servingStore]
    GetStoreRegionCount := fun k => if k = 2 then 1000 else 20 }

/-- A sequence with every kind of call in it. -/
def sampleCalls : List Call :=
  [Call.Collect regionOnBoth, Call.check 5 (viewOf 0 [servingStore]), Call.IsPrepared,
    Call.GetSum, Call.SetPrepared, Call.IsPrepared]

/-- A preparing store with id `3`. -/
def preparingStore : StoreInfo := { GetID := 3, IsPreparing := true, IsServing := false }

/-- The `float64` nearest to `0.9`, as `8106479329266893 * 2 ^ (-53)`. -/
def nineTenths : F64 := F64.fin 8106479329266893 (-53)

/-- A configuration with factor `0.9` and a timeout of five minutes. -/
def cfgNineTenths : Config := { collectTimeout := 300000000000, collectFactor := nineTenths }

/-- A cluster of 10 regions, all loaded from storage, whose only store is
`servingStore`, holding the 10 regions. -/
def viewOfTen : BasicCluster :=
  { GetClusterNotFromStorageRegionsCnt := 0
    GetTotalRegionCount := 10
    GetStores := [servingStore]
    GetStoreRegionCount := fun _ => 10 }

/-! ## Functions used to state the lemmas and theorems -/

/-- The regions passed to the `Collect` calls of a sequence of calls, in order. -/
def collectedRegions : List Call → List RegionInfo
  | [] => []
  | Call.Collect region :: calls => region :: collectedRegions calls
  | _ :: calls => collectedRegions calls

/-- A sequence of calls that collects two regions. -/
def collectingCalls : List Call :=
  [Call.Collect regionOnBoth, Call.check 5 (viewOf 0 [servingStore]), Call.GetSum,
    Call.Collect { GetPeers := [{ GetStoreId := 2 }, { GetStoreId := 3 }] }, Call.IsPrepared]

/-- The quotient of `a` by `2 ^ k` rounded to nearest, ties to even: the
rounding step of `F64.round`, used to state lemmas about it. -/
def F64.roundQuot (a k : Nat) : Nat :=
  let q := a / 2 ^ k
  let r := a % 2 ^ k
  let half := 2 ^ (k - 1)
  if half < r ∨ (r = half ∧ q % 2 = 1) then q + 1 else q

/-- The integer that `float64(a)` stands for, overflow aside, for a natural
number `a`: `a` rounded to 53 significant bits. Used to state lemmas about
`F64.ofInt`. -/
def F64.nearest (a : Nat) : Nat :=
  F64.roundQuot a (F64.bitLength a - 53) * 2 ^ (F64.bitLength a - 53)

/-- The integer that `float64(n)` stands for, overflow aside, for an integer
`n`: the sign of `n` with its magnitude rounded to 53 significant bits. Used to
state lemmas about `F64.ofInt`. -/
def F64.nearestInt (n : Int) : Int :=
  if n < 0 then -(F64.nearest n.natAbs : Int) else (F64.nearest n.natAbs : Int)

/-- Collecting `region` takes no counter out of the range of `int`: the sum is
an `int` below `maxInt64`, and the count of every store with a peer in the
region is an `int` that is still at most `maxInt64` after the occurrences of
the store among the peers are added. -/
abbrev prepareChecker.noOverflow (checker : prepareChecker) (region : RegionInfo) : Prop :=
  minInt64 ≤ checker.sum ∧ checker.sum < maxInt64 ∧
    ∀ n ∈ region.GetPeers.map Peer.GetStoreId,
      minInt64 ≤ checker.reactiveRegions.get n ∧
        checker.reactiveRegions.get n +
          ((region.GetPeers.map Peer.GetStoreId).count n : Nat) ≤ maxInt64

/-- A cluster without regions and without stores. -/
def emptyView : BasicCluster :=
  { GetClusterNotFromStorageRegionsCnt := 0
    GetTotalRegionCount := 0
    GetStores := []
    GetStoreRegionCount := fun _ => 0 }

/-! ## Lemmas -/

theorem F64.bitLengthAux_le (fuel n k : Nat) (h : n < 2 ^ k) : bitLengthAux fuel n ≤ k := by
  induction fuel generalizing n k with
  | zero => simp [bitLengthAux]
  | succ fuel ih =>
    unfold bitLengthAux
    split
    · exact Nat.zero_le _
    · rename_i hn
      cases k with
      | zero => omega
      | succ k =>
        have : n / 2 < 2 ^ k := by
          rw [Nat.pow_succ] at h
          omega
        exact Nat.succ_le_succ (ih _ _ this)

/-- Integers of magnitude below `2 ^ 53` convert to `float64` exactly. -/
theorem F64.ofInt_of_small (n : Int) (h : n.natAbs < 2 ^ 53) : F64.ofInt n = F64.fin n 0 := by
  have hb : bitLength n.natAbs ≤ 53 := bitLengthAux_le _ _ _ h
  unfold ofInt round
  have h1 : max ((0 : Int) + (bitLength n.natAbs : Int) - 53) (-1074) ≤ 0 := by
    apply max_le <;> omega
  have h2 : ¬ ((0 : Int) + (bitLength n.natAbs : Int) > 1024) := by omega
  by_cases h0 : n = 0
  · simp [h0]
  · simp only [h0, h1, h2, if_true, if_false]

namespace prepareChecker

theorem check_of_prepared (cfg : Config) (now : Int) (checker : prepareChecker)
    (c : BasicCluster) (h : checker.prepared = true) :
    checker.check cfg now c = (true, checker) := by
  simp [check, h]

theorem check_snd_prepared_of_prepared (cfg : Config) (now : Int) (checker : prepareChecker)
    (c : BasicCluster) (h : checker.prepared = true) :
    (checker.check cfg now c).2.prepared = true := by
  rw [check_of_prepared cfg now checker c h]; exact h

/-- The loop runs to its end exactly when no preparing or serving store fails
the test of its body. -/
theorem checkStores_eq_true_iff (cfg : Config) (checker : prepareChecker) (c : BasicCluster)
    (stores : List StoreInfo) :
    checkStores cfg checker c stores = true ↔
      ∀ store ∈ stores, (store.IsPreparing = true ∨ store.IsServing = true) →
        F64.gt (F64.mul (F64.ofInt (c.GetStoreRegionCount store.GetID)) cfg.collectFactor)
          (F64.ofInt (checker.reactiveRegions.get store.GetID)) = false := by
  induction stores with
  | nil => simp [checkStores]
  | cons store rest ih =>
    rcases hp : store.IsPreparing with _ | _ <;> rcases hs : store.IsServing with _ | _ <;>
      rcases hg : F64.gt (F64.mul (F64.ofInt (c.GetStoreRegionCount store.GetID))
        cfg.collectFactor) (F64.ofInt (checker.reactiveRegions.get store.GetID)) with _ | _ <;>
      simp [checkStores, hp, hs, hg, ih]

end prepareChecker

theorem wrapInt64_of_inRange {x : Int} (h1 : minInt64 ≤ x) (h2 : x ≤ maxInt64) :
    wrapInt64 x = x := by
  unfold minInt64 at h1
  unfold maxInt64 at h2
  unfold wrapInt64
  omega

theorem wrapInt64_add_wrap (x y : Int) : wrapInt64 (wrapInt64 x + y) = wrapInt64 (x + y) := by
  unfold wrapInt64
  omega

theorem RegionMap.incr_self (m : RegionMap) (k : Nat) :
    (m.incr k) k = some (wrapInt64 (m.get k + 1)) := by
  simp [RegionMap.incr]

theorem RegionMap.incr_of_ne (m : RegionMap) {j k : Nat} (h : j ≠ k) : (m.incr k) j = m j := by
  simp [RegionMap.incr, h]

theorem RegionMap.get_incr_self (m : RegionMap) (k : Nat) :
    (m.incr k).get k = wrapInt64 (m.get k + 1) := by
  simp [RegionMap.get, RegionMap.incr]

theorem RegionMap.get_incr_of_ne (m : RegionMap) {j k : Nat} (h : j ≠ k) :
    (m.incr k).get j = m.get j := by
  simp [RegionMap.get, RegionMap.incr, h]

/-- The entry of a store after the loop of `Collect` over the peers. -/
theorem foldl_incr_apply (peers : List Peer) (m : RegionMap) (j : Nat) :
    (peers.foldl (fun m p => m.incr p.GetStoreId) m) j =
      if j ∈ peers.map Peer.GetStoreId then
        some (wrapInt64 (m.get j + ((peers.map Peer.GetStoreId).count j : Nat)))
      else m j := by
  induction peers generalizing m with
  | nil => simp
  | cons p ps ih =>
    simp only [List.foldl_cons, List.map_cons, ih, List.mem_cons, List.count_cons]
    by_cases hj : j = p.GetStoreId
    · subst hj
      rw [RegionMap.get_incr_self, RegionMap.incr_self]
      by_cases hmem : p.GetStoreId ∈ ps.map Peer.GetStoreId
      · simp only [hmem, if_true, true_or, beq_self_eq_true]
        rw [wrapInt64_add_wrap]
        congr 2
        push_cast
        ring
      · simp [hmem, List.count_eq_zero_of_not_mem hmem]
    · have hj' : ¬ p.GetStoreId = j := fun h => hj h.symm
      rw [RegionMap.get_incr_of_ne m hj, RegionMap.incr_of_ne m hj]
      by_cases hmem : j ∈ ps.map Peer.GetStoreId
      · simp [hmem, hj, hj']
      · simp [hmem, hj, hj']

/-- The count read for a store after the loop of `Collect` over the peers. -/
theorem foldl_incr_get (peers : List Peer) (m : RegionMap) (j : Nat) :
    RegionMap.get (peers.foldl (fun m p => m.incr p.GetStoreId) m) j =
      if j ∈ peers.map Peer.GetStoreId then
        wrapInt64 (m.get j + ((peers.map Peer.GetStoreId).count j : Nat))
      else m.get j := by
  unfold RegionMap.get
  rw [foldl_incr_apply]
  by_cases hmem : j ∈ peers.map Peer.GetStoreId
  · simp [hmem, RegionMap.get]
  · simp [hmem]

/-- The count read for a store after the loop of `Collect` over the peers, when
the count stays within the range of `int`. -/
theorem foldl_incr_get_of_inRange (peers : List Peer) (m : RegionMap) (j : Nat)
    (h1 : minInt64 ≤ m.get j)
    (h2 : m.get j + ((peers.map Peer.GetStoreId).count j : Nat) ≤ maxInt64) :
    RegionMap.get (peers.foldl (fun m p => m.incr p.GetStoreId) m) j =
      m.get j + ((peers.map Peer.GetStoreId).count j : Nat) := by
  rw [foldl_incr_get]
  by_cases hmem : j ∈ peers.map Peer.GetStoreId
  · rw [if_pos hmem]
    exact wrapInt64_of_inRange (by omega) h2
  · rw [if_neg hmem, List.count_eq_zero_of_not_mem hmem]
    simp

theorem prepareChecker.Collect_comm (checker : prepareChecker) (a b : RegionInfo) :
    (checker.Collect a).Collect b = (checker.Collect b).Collect a := by
  have hmap : (b.GetPeers.foldl (fun m p => m.incr p.GetStoreId)
        (a.GetPeers.foldl (fun m p => m.incr p.GetStoreId) checker.reactiveRegions)) =
      (a.GetPeers.foldl (fun m p => m.incr p.GetStoreId)
        (b.GetPeers.foldl (fun m p => m.incr p.GetStoreId) checker.reactiveRegions)) := by
    funext j
    simp only [foldl_incr_apply, foldl_incr_get]
    by_cases ha : j ∈ a.GetPeers.map Peer.GetStoreId <;>
      by_cases hb : j ∈ b.GetPeers.map Peer.GetStoreId
    · simp only [ha, hb, if_true, wrapInt64_add_wrap]
      congr 2
      ring
    · simp [ha, hb]
    · simp [ha, hb]
    · simp [ha, hb]
  simp [prepareChecker.Collect, hmap]

/-- The loop of `check` reads the region count only of the preparing and serving
stores it visits. -/
theorem prepareChecker.checkStores_congr (cfg : Config) (checker : prepareChecker)
    (c1 c2 : BasicCluster) (stores : List StoreInfo)
    (h : ∀ store ∈ stores, (store.IsPreparing = true ∨ store.IsServing = true) →
      c1.GetStoreRegionCount store.GetID = c2.GetStoreRegionCount store.GetID) :
    checkStores cfg checker c1 stores = checkStores cfg checker c2 stores := by
  induction stores with
  | nil => rfl
  | cons store rest ih =>
    have ih1 := ih (fun st hst => h st (List.mem_cons_of_mem _ hst))
    have h0 := h store (List.mem_cons_self _ _)
    rcases hp : store.IsPreparing with _ | _ <;> rcases hs : store.IsServing with _ | _ <;>
      simp [checkStores, hp, hs, ih1] <;> simp [hp, hs] at h0 <;> simp [h0]

/-- The loop of `check` gives the same result on the stores with those that are
neither preparing nor serving removed. -/
theorem prepareChecker.checkStores_filter (cfg : Config) (checker : prepareChecker)
    (c : BasicCluster) (stores : List StoreInfo) :
    checkStores cfg checker c stores =
      checkStores cfg checker c (stores.filter (fun s => s.IsPreparing || s.IsServing)) := by
  induction stores with
  | nil => rfl
  | cons store rest ih =>
    rcases hp : store.IsPreparing with _ | _ <;> rcases hs : store.IsServing with _ | _ <;>
      simp [checkStores, List.filter_cons, hp, hs, ih]

theorem step_prepared (cfg : Config) (checker : prepareChecker) (call : Call)
    (h : checker.prepared = true) :
    (step cfg checker call).1.prepared = true ∧
      (call.isQuery = true → (step cfg checker call).2 = Ret.bool true) := by
  cases call with
  | Collect region => simp [step, prepareChecker.Collect, h, Call.isQuery]
  | check now c =>
    simp [step, prepareChecker.check_of_prepared cfg now checker c h, h]
  | IsPrepared => simp [step, prepareChecker.IsPrepared, h]
  | SetPrepared => simp [step, prepareChecker.SetPrepared, Call.isQuery]
  | GetSum => simp [step, h, Call.isQuery]

theorem run_calls (cfg : Config) (checker : prepareChecker) (calls : List Call) :
    (run cfg checker calls).2.map Prod.fst = calls := by
  induction calls generalizing checker with
  | nil => rfl
  | cons call calls ih => simp [run, ih]

/-- The two outcomes of `check`: true with the flag set, or false with the
checker, whose flag is not set, left as it was. -/
theorem prepareChecker.check_cases (cfg : Config) (now : Int) (checker : prepareChecker)
    (c : BasicCluster) :
    checker.check cfg now c = (true, { checker with prepared := true }) ∨
      (checker.prepared = false ∧ checker.check cfg now c = (false, checker)) := by
  rcases hp : checker.prepared with _ | _
  · by_cases ht : timeSince now checker.start > cfg.collectTimeout
    · left; simp [check, hp, ht]
    · rcases hb : F64.gt (F64.ofInt c.GetClusterNotFromStorageRegionsCnt)
          (F64.mul (F64.ofInt c.GetTotalRegionCount) cfg.collectFactor) with _ | _
      · rcases hs : F64.gt (F64.mul (F64.ofInt c.GetTotalRegionCount) cfg.collectFactor)
            (F64.ofInt checker.sum) with _ | _
        · rcases hl : checkStores cfg checker c c.GetStores with _ | _
          · right; simp [check, hp, ht, hb, hs, hl]
          · left; simp [check, hp, ht, hb, hs, hl]
        · right; simp [check, hp, ht, hb, hs]
      · left; simp [check, hp, ht, hb]
  · left
    rw [check_of_prepared cfg now checker c hp]
    cases checker
    simp_all

theorem step_map_of_not_Collect (cfg : Config) (checker : prepareChecker) (call : Call)
    (h : collectedRegions [call] = []) :
    (step cfg checker call).1.reactiveRegions = checker.reactiveRegions ∧
      (step cfg checker call).1.sum = checker.sum := by
  cases call with
  | Collect region => simp [collectedRegions] at h
  | check now c =>
    rcases prepareChecker.check_cases cfg now checker c with h | ⟨_, h⟩ <;> simp [step, h]
  | IsPrepared => simp [step]
  | SetPrepared => simp [step, prepareChecker.SetPrepared]
  | GetSum => simp [step]

/-- After a sequence of calls the sum has grown by the number of `Collect`
calls and the count read for a store by its occurrences among the peers of the
collected regions, as long as these stay within the range of `int`; the keys of
the map are the keys before and the stores of those peers. -/
theorem run_counts (cfg : Config) (checker : prepareChecker) (calls : List Call) :
    (minInt64 ≤ checker.sum → checker.sum + (collectedRegions calls).length ≤ maxInt64 →
      (run cfg checker calls).1.sum = checker.sum + (collectedRegions calls).length) ∧
      (∀ n : Nat, minInt64 ≤ checker.reactiveRegions.get n →
        checker.reactiveRegions.get n +
          (((collectedRegions calls).map
            (fun r => (r.GetPeers.map Peer.GetStoreId).count n)).sum : Nat) ≤ maxInt64 →
        (run cfg checker calls).1.reactiveRegions.get n =
          checker.reactiveRegions.get n +
            (((collectedRegions calls).map
              (fun r => (r.GetPeers.map Peer.GetStoreId).count n)).sum : Nat)) ∧
      (∀ n : Nat, ((run cfg checker calls).1.reactiveRegions n).isSome = true →
        (checker.reactiveRegions n).isSome = true ∨
          ∃ r ∈ collectedRegions calls, n ∈ r.GetPeers.map Peer.GetStoreId) := by
  induction calls generalizing checker with
  | nil => simp [run, collectedRegions]
  | cons call calls ih =>
    obtain ⟨ih1, ih2, ih3⟩ := ih (step cfg checker call).1
    by_cases hcall : collectedRegions [call] = []
    · have hs := step_map_of_not_Collect cfg checker call hcall
      have hrest : collectedRegions (call :: calls) = collectedRegions calls := by
        cases call <;> simp_all [collectedRegions]
      rw [hrest]
      refine ⟨?_, fun n => ?_, fun n hn => ?_⟩
      · simpa only [run, hs.2] using ih1
      · simpa only [run, hs.1] using ih2 n
      · simp only [run] at hn
        simpa only [hs.1] using ih3 n hn
    · cases call with
      | Collect region =>
        refine ⟨fun hlow hupp => ?_, fun n hlow hupp => ?_, fun n hn => ?_⟩
        · simp only [collectedRegions, List.length_cons, Nat.cast_add, Nat.cast_one] at hupp ⊢
          have hstep : (step cfg checker (Call.Collect region)).1.sum = checker.sum + 1 := by
            simp only [step, prepareChecker.Collect]
            exact wrapInt64_of_inRange (by omega) (by omega)
          simp only [run]
          rw [ih1 (by omega) (by omega), hstep]
          ring
        · simp only [collectedRegions, List.map_cons, List.sum_cons, Nat.cast_add] at hupp ⊢
          have hstep : (step cfg checker (Call.Collect region)).1.reactiveRegions.get n =
              checker.reactiveRegions.get n +
                ((region.GetPeers.map Peer.GetStoreId).count n : Nat) := by
            simp only [step, prepareChecker.Collect]
            exact foldl_incr_get_of_inRange _ _ n hlow (by omega)
          simp only [run]
          rw [ih2 n (by omega) (by omega), hstep]
          ring
        · simp only [run] at hn
          rcases ih3 n hn with h | ⟨r, hr, hmem⟩
          · simp only [step, prepareChecker.Collect, foldl_incr_apply] at h
            by_cases hin : n ∈ region.GetPeers.map Peer.GetStoreId
            · exact Or.inr ⟨region, by simp [collectedRegions], hin⟩
            · rw [if_neg hin] at h
              exact Or.inl h
          · exact Or.inr ⟨r, by simp [collectedRegions, hr], hmem⟩
      | check now c => exact absurd rfl hcall
      | IsPrepared => exact absurd rfl hcall
      | SetPrepared => exact absurd rfl hcall
      | GetSum => exact absurd rfl hcall

/-- Counting every element of a finite set in a list whose elements all lie in
the set gives the length of the list. -/
theorem sum_count_eq_length (l : List Nat) (S : Finset Nat) (h : ∀ n ∈ l, n ∈ S) :
    Finset.sum S (fun n => l.count n) = l.length := by
  induction l with
  | nil => simp
  | cons a l ih =>
    have ha : a ∈ S := h a (List.mem_cons_self _ _)
    have ih1 := ih (fun n hn => h n (List.mem_cons_of_mem _ hn))
    simp only [List.count_cons, List.length_cons, Finset.sum_add_distrib, ih1]
    simp [ha]

theorem F64.bitLengthAux_zero (fuel : Nat) : bitLengthAux fuel 0 = 0 := by
  cases fuel <;> simp [bitLengthAux]

theorem F64.bitLengthAux_spec (fuel n : Nat) (h : n ≤ fuel) :
    n < 2 ^ bitLengthAux fuel n ∧ (n ≠ 0 → 2 ^ (bitLengthAux fuel n - 1) ≤ n) := by
  induction fuel generalizing n with
  | zero =>
    have : n = 0 := by omega
    subst this
    simp [bitLengthAux]
  | succ fuel ih =>
    by_cases hn : n = 0
    · subst hn
      simp [bitLengthAux]
    · have hhalf : n / 2 ≤ fuel := by omega
      obtain ⟨h1, h2⟩ := ih (n / 2) hhalf
      simp only [bitLengthAux, hn, if_false, Nat.add_sub_cancel]
      refine ⟨?_, fun _ => ?_⟩
      · rw [Nat.pow_succ]
        omega
      · by_cases hq : n / 2 = 0
        · rw [hq, bitLengthAux_zero]
          simp
          omega
        · have h3 := h2 hq
          have hpos : bitLengthAux fuel (n / 2) ≠ 0 := by
            intro h0
            rw [h0] at h1
            simp at h1
            exact hq h1
          obtain ⟨j, hj⟩ := Nat.exists_eq_succ_of_ne_zero hpos
          rw [hj] at h3 ⊢
          simp only [Nat.succ_sub_one] at h3
          rw [Nat.pow_succ]
          omega

theorem F64.lt_two_pow_bitLength (n : Nat) : n < 2 ^ bitLength n :=
  (bitLengthAux_spec n n (Nat.le_refl n)).1

theorem F64.two_pow_bitLength_le (n : Nat) (h : n ≠ 0) : 2 ^ (bitLength n - 1) ≤ n :=
  (bitLengthAux_spec n n (Nat.le_refl n)).2 h

theorem F64.bitLength_mono {a b : Nat} (h : a ≤ b) : bitLength a ≤ bitLength b :=
  bitLengthAux_le a a (bitLength b) (Nat.lt_of_le_of_lt h (lt_two_pow_bitLength b))

theorem F64.bitLength_pos {n : Nat} (h : n ≠ 0) : 0 < bitLength n := by
  rcases Nat.eq_zero_or_pos (bitLength n) with h0 | h0
  · have := lt_two_pow_bitLength n
    rw [h0] at this
    simp at this
    exact absurd this h
  · exact h0

theorem F64.roundQuot_ge (a k : Nat) : a / 2 ^ k ≤ roundQuot a k := by
  unfold roundQuot
  simp only
  split <;> omega

theorem F64.roundQuot_le (a k : Nat) : roundQuot a k ≤ a / 2 ^ k + 1 := by
  unfold roundQuot
  simp only
  split <;> omega

theorem F64.roundQuot_mono (k : Nat) {a b : Nat} (h : a ≤ b) :
    roundQuot a k ≤ roundQuot b k := by
  have hq : a / 2 ^ k ≤ b / 2 ^ k := Nat.div_le_div_right h
  rcases Nat.lt_or_ge (a / 2 ^ k) (b / 2 ^ k) with hlt | hge
  · exact Nat.le_trans (roundQuot_le a k) (Nat.le_trans hlt (roundQuot_ge b k))
  · have heq : a / 2 ^ k = b / 2 ^ k := Nat.le_antisymm hq hge
    have hr : a % 2 ^ k ≤ b % 2 ^ k := by
      have ha := Nat.div_add_mod a (2 ^ k)
      have hb := Nat.div_add_mod b (2 ^ k)
      rw [heq] at ha
      omega
    unfold roundQuot
    simp only [heq]
    split <;> split <;> omega

theorem F64.nearest_of_small {a : Nat} (h : bitLength a ≤ 53) : nearest a = a := by
  have hk : bitLength a - 53 = 0 := by omega
  simp [nearest, roundQuot, hk, Nat.mod_one]

theorem F64.nearest_bounds {a : Nat} (h : a ≠ 0) :
    2 ^ (bitLength a - 1) ≤ nearest a ∧ nearest a ≤ 2 ^ bitLength a := by
  rcases Nat.lt_or_ge 53 (bitLength a) with hl | hs
  swap
  · rw [nearest_of_small hs]
    exact ⟨two_pow_bitLength_le a h, Nat.le_of_lt (lt_two_pow_bitLength a)⟩
  · have hlow := two_pow_bitLength_le a h
    have hupp := lt_two_pow_bitLength a
    have e1 : bitLength a - 1 = 52 + (bitLength a - 53) := by omega
    have e2 : bitLength a = 53 + (bitLength a - 53) := by omega
    rw [e1, Nat.pow_add] at hlow
    rw [e1, Nat.pow_add]
    have hpos : 0 < 2 ^ (bitLength a - 53) := Nat.pow_pos (by decide)
    have hq1 : 2 ^ 52 ≤ a / 2 ^ (bitLength a - 53) :=
      (Nat.le_div_iff_mul_le hpos).2 hlow
    have hq2 : a / 2 ^ (bitLength a - 53) < 2 ^ 53 := by
      apply (Nat.div_lt_iff_lt_mul hpos).2
      rw [← Nat.pow_add, ← e2]
      exact hupp
    constructor
    · exact Nat.mul_le_mul_right _ (Nat.le_trans hq1 (roundQuot_ge a _))
    · have : roundQuot a (bitLength a - 53) ≤ 2 ^ 53 :=
        Nat.le_trans (roundQuot_le a _) hq2
      calc nearest a = roundQuot a (bitLength a - 53) * 2 ^ (bitLength a - 53) := rfl
        _ ≤ 2 ^ 53 * 2 ^ (bitLength a - 53) := Nat.mul_le_mul_right _ this
        _ = 2 ^ bitLength a := by rw [← Nat.pow_add, ← e2]

theorem F64.nearest_zero : nearest 0 = 0 := by
  simp [nearest, roundQuot, bitLength, bitLengthAux]

/-- Conversion to `float64` keeps the order of natural numbers. -/
theorem F64.nearest_mono {a b : Nat} (h : a ≤ b) : nearest a ≤ nearest b := by
  by_cases ha : a = 0
  · subst ha
    rw [nearest_zero]
    exact Nat.zero_le _
  · have hb : b ≠ 0 := by omega
    have hL := bitLength_mono h
    rcases Nat.lt_or_ge (bitLength a) (bitLength b) with hlt | hge
    · have h1 := (nearest_bounds ha).2
      have h2 := (nearest_bounds hb).1
      have h3 : 2 ^ bitLength a ≤ 2 ^ (bitLength b - 1) :=
        Nat.pow_le_pow_right (by decide) (by omega)
      exact Nat.le_trans h1 (Nat.le_trans h3 h2)
    · have heq : bitLength a = bitLength b := Nat.le_antisymm hL hge
      unfold nearest
      rw [heq]
      exact Nat.mul_le_mul_right _ (roundQuot_mono _ h)

/-- The comparison of two finite values is the comparison of the rational
numbers they stand for. -/
theorem F64.gt_fin_fin (a e b f : Int) :
    gt (fin a e) (fin b f) = true ↔ (b : ℚ) * (2 : ℚ) ^ f < (a : ℚ) * (2 : ℚ) ^ e := by
  have key : ∀ (x g e0 : Int), e0 ≤ g →
      ((x * 2 ^ (g - e0).toNat : Int) : ℚ) = (x : ℚ) * (2 : ℚ) ^ g / (2 : ℚ) ^ e0 := by
    intro x g e0 h
    have h2 : (2 : ℚ) ≠ 0 := by norm_num
    push_cast
    rw [← zpow_natCast, Int.toNat_of_nonneg (by omega), zpow_sub₀ h2, mul_div_assoc]
  have hpos : (0 : ℚ) < (2 : ℚ) ^ (min e f) := zpow_pos (by norm_num) _
  simp only [gt, decide_eq_true_eq]
  rw [← @Int.cast_lt ℚ, key b f _ (min_le_right _ _), key a e _ (min_le_left _ _)]
  exact div_lt_div_iff_of_pos_right hpos

theorem F64.overflow_iff (q k bound : Nat) (hq : q ≠ 0) :
    ((k : Int) + (bitLength q : Int) > bound) ↔ 2 ^ bound ≤ q * 2 ^ k := by
  have hlow := two_pow_bitLength_le q hq
  have hupp := lt_two_pow_bitLength q
  have hL := bitLength_pos hq
  constructor
  · intro h
    have h1 : bound ≤ (bitLength q - 1) + k := by omega
    calc 2 ^ bound ≤ 2 ^ ((bitLength q - 1) + k) := Nat.pow_le_pow_right (by decide) h1
      _ = 2 ^ (bitLength q - 1) * 2 ^ k := Nat.pow_add _ _ _
      _ ≤ q * 2 ^ k := Nat.mul_le_mul_right _ hlow
  · intro h
    by_contra hc
    have h1 : bitLength q + k ≤ bound := by omega
    have h2 : q * 2 ^ k < 2 ^ bound :=
      calc q * 2 ^ k < 2 ^ bitLength q * 2 ^ k :=
            Nat.mul_lt_mul_of_pos_right hupp (Nat.pow_pos (by decide))
        _ = 2 ^ (bitLength q + k) := (Nat.pow_add _ _ _).symm
        _ ≤ 2 ^ bound := Nat.pow_le_pow_right (by decide) h1
    exact absurd h (Nat.not_le.2 h2)

theorem F64.two_pow_le_two_pow {i j : Nat} (h : i ≤ j) : 2 ^ i ≤ 2 ^ j :=
  Nat.pow_le_pow_right (by decide) h

theorem F64.ofInt_of_large (n : Int) (h : 53 < bitLength n.natAbs) :
    ofInt n =
      if ((bitLength n.natAbs : Int) - 53) +
          (bitLength (roundQuot n.natAbs (bitLength n.natAbs - 53)) : Int) > 1024 then
        inf (decide (n < 0))
      else
        fin (if n < 0 then -(roundQuot n.natAbs (bitLength n.natAbs - 53) : Int)
          else (roundQuot n.natAbs (bitLength n.natAbs - 53) : Int))
          ((bitLength n.natAbs : Int) - 53) := by
  have h0 : n ≠ 0 := by
    intro hn
    subst hn
    simp [bitLength, bitLengthAux] at h
  have htarget : max ((0 : Int) + (bitLength n.natAbs : Int) - 53) (-1074) =
      (bitLength n.natAbs : Int) - 53 := by
    rw [zero_add]
    exact max_eq_left (by omega)
  have hnot : ¬ ((bitLength n.natAbs : Int) - 53 ≤ 0) := by omega
  have hk : ((bitLength n.natAbs : Int) - 53 - 0).toNat = bitLength n.natAbs - 53 := by omega
  unfold ofInt round roundQuot
  simp only [htarget, h0, hnot, hk, if_false]

/-- What `float64(n)` is: an infinity with the sign of `n` when the rounded
magnitude reaches `2 ^ 1024`, and otherwise a finite value standing for
`nearestInt n`. -/
theorem F64.ofInt_cases (n : Int) :
    (2 ^ 1024 ≤ nearest n.natAbs ∧ ofInt n = inf (decide (n < 0))) ∨
      (nearest n.natAbs < 2 ^ 1024 ∧
        ∃ m e : Int, ofInt n = fin m e ∧ (m : ℚ) * (2 : ℚ) ^ e = (nearestInt n : ℚ)) := by
  rcases Nat.lt_or_ge 53 (bitLength n.natAbs) with hl | hs
  · have hq : roundQuot n.natAbs (bitLength n.natAbs - 53) ≠ 0 := by
      intro h0
      have hn : n.natAbs ≠ 0 := by
        intro hz
        rw [hz] at hl
        simp [bitLength, bitLengthAux] at hl
      have h1 := (nearest_bounds hn).1
      have h2 : nearest n.natAbs = 0 := by simp [nearest, h0]
      rw [h2] at h1
      exact absurd h1 (Nat.not_le.2 (Nat.pow_pos (by decide)))
    have hov := overflow_iff (roundQuot n.natAbs (bitLength n.natAbs - 53))
      (bitLength n.natAbs - 53) 1024 hq
    have hcast : ((bitLength n.natAbs - 53 : Nat) : Int) = (bitLength n.natAbs : Int) - 53 := by
      omega
    rw [hcast] at hov
    rw [ofInt_of_large n hl]
    by_cases hbig : 2 ^ 1024 ≤ nearest n.natAbs
    · left
      exact ⟨hbig, if_pos (hov.2 hbig)⟩
    · right
      refine ⟨Nat.not_le.1 hbig, _, _, if_neg (fun h => hbig (hov.1 h)), ?_⟩
      rw [← hcast, zpow_natCast]
      unfold nearestInt nearest
      split <;> push_cast <;> ring
  · right
    have hsmall : n.natAbs < 2 ^ 53 :=
      Nat.lt_of_lt_of_le (lt_two_pow_bitLength n.natAbs) (Nat.pow_le_pow_right (by decide) hs)
    refine ⟨?_, n, 0, ofInt_of_small n hsmall, ?_⟩
    · rw [nearest_of_small hs]
      exact Nat.lt_of_lt_of_le hsmall (two_pow_le_two_pow (by decide))
    · unfold nearestInt
      rw [nearest_of_small hs]
      split
      · have : -(n.natAbs : Int) = n := by omega
        rw [this]; simp
      · have : (n.natAbs : Int) = n := by omega
        rw [this]; simp

/-- Conversion to `float64` keeps the order of integers. -/
theorem F64.nearestInt_mono {a b : Int} (h : a ≤ b) : nearestInt a ≤ nearestInt b := by
  unfold nearestInt
  by_cases ha : a < 0 <;> by_cases hb : b < 0
  · have : nearest b.natAbs ≤ nearest a.natAbs := nearest_mono (by omega)
    simp only [ha, hb, if_true]
    omega
  · simp only [ha, hb, if_true, if_false]
    omega
  · omega
  · have : nearest a.natAbs ≤ nearest b.natAbs := nearest_mono (by omega)
    simp only [ha, hb, if_false]
    omega

theorem F64.gt_inf_false (x : F64) : gt x (inf false) = false := by
  cases x <;> simp [gt]

theorem F64.gt_inf_true_of_gt_fin (x : F64) (m e : Int) (h : gt x (fin m e) = true) :
    gt x (inf true) = true := by
  cases x <;> simp_all [gt]

/-- The test `x > float64(n)` can only go from true to false as `n` grows. -/
theorem F64.gt_ofInt_anti (x : F64) {a b : Int} (h : a ≤ b) (hb : gt x (ofInt b) = true) :
    gt x (ofInt a) = true := by
  have hmono := nearestInt_mono h
  rcases ofInt_cases b with ⟨hbig, hB⟩ | ⟨hfinb, mb, eb, hB, hvb⟩
  · by_cases hneg : b < 0
    · have ha : a < 0 := by omega
      have hle : nearest b.natAbs ≤ nearest a.natAbs := nearest_mono (by omega)
      rcases ofInt_cases a with ⟨_, hA⟩ | ⟨hfina, _⟩
      · rw [hA]
        rw [hB] at hb
        simpa [ha, hneg] using hb
      · exact absurd (Nat.le_trans hbig hle) (Nat.not_le.2 hfina)
    · rw [hB] at hb
      simp only [hneg, decide_False] at hb
      rw [gt_inf_false] at hb
      exact absurd hb (by decide)
  · rw [hB] at hb
    rcases ofInt_cases a with ⟨hbig, hA⟩ | ⟨hfina, ma, ea, hA, hva⟩
    · rw [hA]
      by_cases hneg : a < 0
      · simp only [hneg, decide_True]
        exact gt_inf_true_of_gt_fin x mb eb hb
      · have hb0 : ¬ b < 0 := by omega
        have hle : nearest a.natAbs ≤ nearest b.natAbs := nearest_mono (by omega)
        exact absurd (Nat.le_trans hbig hle) (Nat.not_le.2 hfinb)
    · rw [hA]
      cases x with
      | nan => simp [gt] at hb
      | inf s => simpa [gt] using hb
      | fin m e =>
        rw [gt_fin_fin] at hb ⊢
        rw [hvb] at hb
        rw [hva]
        have : (nearestInt a : ℚ) ≤ (nearestInt b : ℚ) := by exact_mod_cast hmono
        exact lt_of_le_of_lt this hb

/-- The test `x > float64(n)`, once false, stays false as `n` grows. -/
theorem F64.gt_ofInt_false_mono (x : F64) {a b : Int} (h : a ≤ b)
    (ha : gt x (ofInt a) = false) : gt x (ofInt b) = false := by
  rcases hb : gt x (ofInt b) with _ | _
  · rfl
  · rw [gt_ofInt_anti x h hb] at ha
    exact absurd ha (by decide)

/-- A checker with the same `start` and flag, at least the sum and at least
the count of every store passes `check` whenever the first one does. -/
theorem prepareChecker.check_true_mono (cfg : Config) (now : Int) (c : BasicCluster)
    (s t : prepareChecker)
    (hstart : t.start = s.start) (hprep : t.prepared = s.prepared)
    (hsum : s.sum ≤ t.sum)
    (hmap : ∀ n : Nat, s.reactiveRegions.get n ≤ t.reactiveRegions.get n)
    (h : (s.check cfg now c).1 = true) :
    (t.check cfg now c).1 = true := by
  rcases hp : s.prepared with _ | _
  · have hpt : t.prepared = false := by rw [hprep, hp]
    by_cases ht : timeSince now s.start > cfg.collectTimeout
    · simp [check, hpt, hstart, ht]
    · rcases hb : F64.gt (F64.ofInt c.GetClusterNotFromStorageRegionsCnt)
          (F64.mul (F64.ofInt c.GetTotalRegionCount) cfg.collectFactor) with _ | _
      · rcases hs : F64.gt (F64.mul (F64.ofInt c.GetTotalRegionCount) cfg.collectFactor)
            (F64.ofInt s.sum) with _ | _
        · rcases hl : checkStores cfg s c c.GetStores with _ | _
          · simp [check, hp, ht, hb, hs, hl] at h
          · have hs1 := F64.gt_ofInt_false_mono _ hsum hs
            have hl1 : checkStores cfg t c c.GetStores = true := by
              rw [checkStores_eq_true_iff] at hl ⊢
              intro store hmem hstatus
              exact F64.gt_ofInt_false_mono _ (hmap store.GetID) (hl store hmem hstatus)
            simp [check, hpt, hstart, ht, hb, hs1, hl1]
        · simp [check, hp, ht, hb, hs] at h
      · simp [check, hpt, hstart, ht, hb]
  · have hpt : t.prepared = true := by rw [hprep, hp]
    rw [check_of_prepared cfg now t c hpt]

/-- What a `check` that returns true through its last branch has tested: the
global test and the test of every preparing or serving store came out false,
that is, neither threshold exceeds the collected count. -/
theorem prepareChecker.check_true_thresholds (cfg : Config) (now : Int)
    (checker : prepareChecker) (c : BasicCluster)
    (hprep : checker.prepared = false)
    (htime : timeSince now checker.start ≤ cfg.collectTimeout)
    (hboot : F64.gt (F64.ofInt c.GetClusterNotFromStorageRegionsCnt)
      (F64.mul (F64.ofInt c.GetTotalRegionCount) cfg.collectFactor) = false)
    (h : (checker.check cfg now c).1 = true) :
    F64.gt (F64.mul (F64.ofInt c.GetTotalRegionCount) cfg.collectFactor)
        (F64.ofInt checker.sum) = false ∧
      ∀ store ∈ c.GetStores, (store.IsPreparing = true ∨ store.IsServing = true) →
        F64.gt (F64.mul (F64.ofInt (c.GetStoreRegionCount store.GetID)) cfg.collectFactor)
          (F64.ofInt (checker.reactiveRegions.get store.GetID)) = false := by
  rcases hs : F64.gt (F64.mul (F64.ofInt c.GetTotalRegionCount) cfg.collectFactor)
      (F64.ofInt checker.sum) with _ | _
  · rcases hl : checkStores cfg checker c c.GetStores with _ | _
    · simp [check, hprep, not_lt.2 htime, hboot, hs, hl] at h
    · exact ⟨rfl, (checkStores_eq_true_iff cfg checker c c.GetStores).1 hl⟩
  · simp [check, hprep, not_lt.2 htime, hboot, hs] at h

theorem sum_count_le_sum_length (rs : List RegionInfo) (n : Nat) :
    (rs.map (fun r => (r.GetPeers.map Peer.GetStoreId).count n)).sum ≤
      (rs.map (fun r => r.GetPeers.length)).sum := by
  induction rs with
  | nil => simp
  | cons r rs ih =>
    have hr : (r.GetPeers.map Peer.GetStoreId).count n ≤ r.GetPeers.length := by
      have := List.count_le_length n (r.GetPeers.map Peer.GetStoreId)
      simpa using this
    simp only [List.map_cons, List.sum_cons]
    omega

theorem sum_count_le_length_of_nodup (rs : List RegionInfo) (n : Nat)
    (h : ∀ r ∈ rs, (r.GetPeers.map Peer.GetStoreId).Nodup) :
    (rs.map (fun r => (r.GetPeers.map Peer.GetStoreId).count n)).sum ≤ rs.length := by
  induction rs with
  | nil => simp
  | cons r rs ih =>
    have ih1 := ih (fun r1 hr1 => h r1 (List.mem_cons_of_mem _ hr1))
    have hr : (r.GetPeers.map Peer.GetStoreId).count n ≤ 1 :=
      List.nodup_iff_count_le_one.1 (h r (List.mem_cons_self _ _)) n
    simp only [List.map_cons, List.sum_cons, List.length_cons]
    omega

/-- The postcondition of `Collect` when no counter leaves the range of `int`. -/
theorem prepareChecker.Collect_of_noOverflow (checker : prepareChecker) (region : RegionInfo)
    (h : checker.noOverflow region) :
    (checker.Collect region).sum = checker.sum + 1 ∧
      ∀ n : Nat, (checker.Collect region).reactiveRegions.get n =
        checker.reactiveRegions.get n +
          ((region.GetPeers.map Peer.GetStoreId).count n : Nat) := by
  obtain ⟨h1, h2, h3⟩ := h
  refine ⟨?_, fun n => ?_⟩
  · simp only [Collect]
    exact wrapInt64_of_inRange (by omega) (by omega)
  · simp only [Collect]
    by_cases hmem : n ∈ region.GetPeers.map Peer.GetStoreId
    · exact foldl_incr_get_of_inRange _ _ n (h3 n hmem).1 (h3 n hmem).2
    · rw [foldl_incr_get, if_neg hmem, List.count_eq_zero_of_not_mem hmem]
      simp

/-! ## Theorems -/

/-- C1: the prepared flag is absorbing. From a checker whose flag is true, after
any finite sequence of `Collect`, `check`, `IsPrepared`, `SetPrepared` and
`GetSum` calls the flag is still true, every call of the sequence was run, and
every `check` and `IsPrepared` call of the sequence returned true. -/
theorem prepared_absorbing (cfg : Config) (checker : prepareChecker) (calls : List Call)
    (h : checker.prepared = true) :
    (run cfg checker calls).1.prepared = true ∧
      (run cfg checker calls).2.map Prod.fst = calls ∧
      ∀ p ∈ (run cfg checker calls).2, p.1.isQuery = true → p.2 = Ret.bool true := by
  refine ⟨?_, run_calls cfg checker calls, ?_⟩
  · induction calls generalizing checker with
    | nil => exact h
    | cons call calls ih =>
      simpa [run] using ih _ (step_prepared cfg checker call h).1
  · induction calls generalizing checker with
    | nil => simp [run]
    | cons call calls ih =>
      intro p hp
      simp only [run, List.mem_cons] at hp
      rcases hp with rfl | hp
      · exact (step_prepared cfg checker call h).2
      · exact ih _ (step_prepared cfg checker call h).1 p hp

theorem prepared_absorbing_witness :
    (collected 0 0).SetPrepared.prepared = true ∧
      (run cfgTenth (collected 0 0).SetPrepared sampleCalls).1.prepared = true ∧
      (run cfgTenth (collected 0 0).SetPrepared sampleCalls).2.map Prod.fst = sampleCalls ∧
      ∀ p ∈ (run cfgTenth (collected 0 0).SetPrepared sampleCalls).2,
        p.1.isQuery = true → p.2 = Ret.bool true :=
  ⟨rfl, prepared_absorbing cfgTenth (collected 0 0).SetPrepared sampleCalls rfl⟩

/-- C2: all thresholds satisfied. On a checker that is not prepared and not
timed out, when neither the storage test `notLoaded > total * factor` nor the
global test `total * factor > sum` of the code holds, and no preparing or
serving store of the view has `regionCount * factor > reactiveRegions[id]`,
`check` returns true and leaves the checker with the flag set. -/
theorem check_all_collected (cfg : Config) (now : Int) (checker : prepareChecker)
    (c : BasicCluster)
    (hprep : checker.prepared = false)
    (htime : timeSince now checker.start ≤ cfg.collectTimeout)
    (hboot : F64.gt (F64.ofInt c.GetClusterNotFromStorageRegionsCnt)
      (F64.mul (F64.ofInt c.GetTotalRegionCount) cfg.collectFactor) = false)
    (hsum : F64.gt (F64.mul (F64.ofInt c.GetTotalRegionCount) cfg.collectFactor)
      (F64.ofInt checker.sum) = false)
    (hstores : ∀ store ∈ c.GetStores, (store.IsPreparing = true ∨ store.IsServing = true) →
      F64.gt (F64.mul (F64.ofInt (c.GetStoreRegionCount store.GetID)) cfg.collectFactor)
        (F64.ofInt (checker.reactiveRegions.get store.GetID)) = false) :
    (checker.check cfg now c).1 = true ∧
      (checker.check cfg now c).2 = { checker with prepared := true } ∧
      (checker.check cfg now c).2.prepared = true := by
  have hloop := (prepareChecker.checkStores_eq_true_iff cfg checker c c.GetStores).2 hstores
  simp [prepareChecker.check, hprep, not_lt.2 htime, hboot, hsum, hloop]

theorem check_all_collected_witness :
    ((collected 50 2).check cfgTenth 5 (viewOf 0 [servingStore])).1 = true ∧
      ((collected 50 2).check cfgTenth 5 (viewOf 0 [servingStore])).2 =
        { collected 50 2 with prepared := true } ∧
      ((collected 50 2).check cfgTenth 5 (viewOf 0 [servingStore])).2.prepared = true :=
  check_all_collected cfgTenth 5 (collected 50 2) (viewOf 0 [servingStore]) rfl (by decide)
    (by decide) (by decide) (by decide)

/-- C3: per-node blocking. On a checker that is not prepared and not timed out,
when the storage test `notLoaded > total * factor` does not hold and some
preparing or serving store of the view has
`regionCount * factor > reactiveRegions[id]` (an absent entry reads 0), `check`
returns false and leaves the checker as it was, whatever the sum is. -/
theorem check_store_blocks (cfg : Config) (now : Int) (checker : prepareChecker)
    (c : BasicCluster) (store : StoreInfo)
    (hprep : checker.prepared = false)
    (htime : timeSince now checker.start ≤ cfg.collectTimeout)
    (hboot : F64.gt (F64.ofInt c.GetClusterNotFromStorageRegionsCnt)
      (F64.mul (F64.ofInt c.GetTotalRegionCount) cfg.collectFactor) = false)
    (hmem : store ∈ c.GetStores)
    (hstatus : store.IsPreparing = true ∨ store.IsServing = true)
    (hlack : F64.gt (F64.mul (F64.ofInt (c.GetStoreRegionCount store.GetID)) cfg.collectFactor)
      (F64.ofInt (checker.reactiveRegions.get store.GetID)) = true) :
    (checker.check cfg now c).1 = false ∧
      (checker.check cfg now c).2 = checker ∧
      (checker.check cfg now c).2.prepared = false := by
  have hloop : prepareChecker.checkStores cfg checker c c.GetStores = false := by
    rcases h : prepareChecker.checkStores cfg checker c c.GetStores with _ | _
    · rfl
    · have := (prepareChecker.checkStores_eq_true_iff cfg checker c c.GetStores).1 h
        store hmem hstatus
      rw [hlack] at this
      exact absurd this (by decide)
  rcases hsum : F64.gt (F64.mul (F64.ofInt c.GetTotalRegionCount) cfg.collectFactor)
      (F64.ofInt checker.sum) with _ | _ <;>
    simp [prepareChecker.check, hprep, not_lt.2 htime, hboot, hsum, hloop]

theorem check_store_blocks_witness :
    F64.gt (F64.mul (F64.ofInt (viewOf 0 [servingStore]).GetTotalRegionCount)
        cfgTenth.collectFactor) (F64.ofInt (collected 50 1).sum) = false ∧
      ((collected 50 1).check cfgTenth 5 (viewOf 0 [servingStore])).1 = false ∧
      ((collected 50 1).check cfgTenth 5 (viewOf 0 [servingStore])).2 = collected 50 1 ∧
      ((collected 50 1).check cfgTenth 5 (viewOf 0 [servingStore])).2.prepared = false :=
  ⟨by decide, check_store_blocks cfgTenth 5 (collected 50 1) (viewOf 0 [servingStore])
    servingStore rfl (by decide) (by decide) (by decide) (by decide) (by decide)⟩

/-- C4: global threshold not met. On a checker that is not prepared and not
timed out, when the storage test `notLoaded > total * factor` does not hold and
`total * factor > sum`, `check` returns false and the checker afterwards is the
checker before, whatever the stores of the view and their counts are. -/
theorem check_sum_too_small (cfg : Config) (now : Int) (checker : prepareChecker)
    (c : BasicCluster)
    (hprep : checker.prepared = false)
    (htime : timeSince now checker.start ≤ cfg.collectTimeout)
    (hboot : F64.gt (F64.ofInt c.GetClusterNotFromStorageRegionsCnt)
      (F64.mul (F64.ofInt c.GetTotalRegionCount) cfg.collectFactor) = false)
    (hsum : F64.gt (F64.mul (F64.ofInt c.GetTotalRegionCount) cfg.collectFactor)
      (F64.ofInt checker.sum) = true) :
    checker.check cfg now c = (false, checker) := by
  simp [prepareChecker.check, hprep, not_lt.2 htime, hboot, hsum]

theorem check_sum_too_small_witness :
    (collected 5 5).check cfgTenth 5 (viewOf 0 [servingStore]) = (false, collected 5 5) :=
  check_sum_too_small cfgTenth 5 (collected 5 5) (viewOf 0 [servingStore]) rfl (by decide)
    (by decide) (by decide)

/-- C5: storage shortcut. On a checker that is not prepared and not timed out,
when `notLoaded > total * factor`, `check` returns true and sets the flag,
whatever the sum, the per-store counts and the stores of the view are. -/
theorem check_not_loaded_shortcut (cfg : Config) (now : Int) (checker : prepareChecker)
    (c : BasicCluster)
    (hprep : checker.prepared = false)
    (htime : timeSince now checker.start ≤ cfg.collectTimeout)
    (hboot : F64.gt (F64.ofInt c.GetClusterNotFromStorageRegionsCnt)
      (F64.mul (F64.ofInt c.GetTotalRegionCount) cfg.collectFactor) = true) :
    (checker.check cfg now c).1 = true ∧
      (checker.check cfg now c).2 = { checker with prepared := true } ∧
      (checker.check cfg now c).2.prepared = true := by
  simp [prepareChecker.check, hprep, not_lt.2 htime, hboot]

theorem check_not_loaded_shortcut_witness :
    ((newPrepareChecker 0).check cfgTenth 5 (viewOf 95 [servingStore])).1 = true ∧
      ((newPrepareChecker 0).check cfgTenth 5 (viewOf 95 [servingStore])).2 =
        { newPrepareChecker 0 with prepared := true } ∧
      ((newPrepareChecker 0).check cfgTenth 5 (viewOf 95 [servingStore])).2.prepared = true :=
  check_not_loaded_shortcut cfgTenth 5 (newPrepareChecker 0) (viewOf 95 [servingStore]) rfl
    (by decide) (by decide)

/-- C6: fail-open on timeout. When the time since `start` is strictly greater
than `collectTimeout`, `check` returns true and leaves the flag set, for every
checker and every view. When the time since `start` equals `collectTimeout`, the
timeout test does not fire: the result is that of the other steps (the flag
already set, the storage test, the global test, the loop over the stores). -/
theorem check_timeout (cfg : Config) (now : Int) (checker : prepareChecker) (c : BasicCluster) :
    (timeSince now checker.start > cfg.collectTimeout →
      (checker.check cfg now c).1 = true ∧
        (checker.check cfg now c).2 = { checker with prepared := true } ∧
        (checker.check cfg now c).2.prepared = true) ∧
    (timeSince now checker.start = cfg.collectTimeout →
      checker.check cfg now c =
        if checker.prepared then (true, checker)
        else if F64.gt (F64.ofInt c.GetClusterNotFromStorageRegionsCnt)
            (F64.mul (F64.ofInt c.GetTotalRegionCount) cfg.collectFactor) then
          (true, { checker with prepared := true })
        else if F64.gt (F64.mul (F64.ofInt c.GetTotalRegionCount) cfg.collectFactor)
            (F64.ofInt checker.sum) then
          (false, checker)
        else if prepareChecker.checkStores cfg checker c c.GetStores then
          (true, { checker with prepared := true })
        else (false, checker)) := by
  constructor
  · intro h
    rcases hp : checker.prepared with _ | _
    · simp [prepareChecker.check, hp, h]
    · have hc := prepareChecker.check_of_prepared cfg now checker c hp
      rw [hc]
      refine ⟨rfl, ?_, hp⟩
      cases checker
      simp_all
  · intro h
    simp [prepareChecker.check, h]

theorem check_timeout_witness :
    (timeSince 300000000001 (collected 0 0).start > cfgTenth.collectTimeout ∧
      ((collected 0 0).check cfgTenth 300000000001 (viewOf 0 [servingStore])).1 = true ∧
      ((collected 0 0).check cfgTenth 300000000001 (viewOf 0 [servingStore])).2.prepared
        = true) ∧
    (timeSince 300000000000 (collected 0 0).start = cfgTenth.collectTimeout ∧
      ((collected 0 0).check cfgTenth 300000000000 (viewOf 0 [servingStore])).1 = false) :=
  ⟨⟨by decide,
    ((check_timeout cfgTenth 300000000001 (collected 0 0) (viewOf 0 [servingStore])).1
      (by decide)).1,
    ((check_timeout cfgTenth 300000000001 (collected 0 0) (viewOf 0 [servingStore])).1
      (by decide)).2.2⟩,
   ⟨by decide,
    (congrArg Prod.fst
      ((check_timeout cfgTenth 300000000000 (collected 0 0) (viewOf 0 [servingStore])).2
        (by decide))).trans (by decide)⟩⟩

/-- C7: fast path. On a checker whose flag is set, `check` returns true and
leaves the checker as it was, for every view and every clock reading; its
result is the same for any other view, clock reading and configuration. -/
theorem check_fast_path (cfg : Config) (now : Int) (checker : prepareChecker)
    (c : BasicCluster) (h : checker.prepared = true) :
    checker.check cfg now c = (true, checker) ∧
      ∀ (cfg1 : Config) (now1 : Int) (c1 : BasicCluster),
        checker.check cfg1 now1 c1 = checker.check cfg now c := by
  refine ⟨prepareChecker.check_of_prepared cfg now checker c h, ?_⟩
  intro cfg1 now1 c1
  rw [prepareChecker.check_of_prepared cfg now checker c h,
    prepareChecker.check_of_prepared cfg1 now1 checker c1 h]

theorem check_fast_path_witness :
    (collected 0 0).SetPrepared.prepared = true ∧
      (collected 0 0).SetPrepared.check cfgTenth 5 (viewOf 0 [servingStore]) =
        (true, (collected 0 0).SetPrepared) :=
  ⟨rfl, (check_fast_path cfgTenth 5 (collected 0 0).SetPrepared (viewOf 0 [servingStore])
    rfl).1⟩

/-- C8 as stated fails at the end of the range of `int`: on a checker whose sum
and whose count for store 1 are `maxInt64`, `Collect` of a region with a peer on
store 1 leaves the sum and that count at `minInt64`, not at the old value
plus 1. -/
theorem Collect_wraps_at_maxInt64 :
    (collected maxInt64 maxInt64).sum = maxInt64 ∧
      ((collected maxInt64 maxInt64).Collect regionOnBoth).sum = minInt64 ∧
      ((collected maxInt64 maxInt64).Collect regionOnBoth).sum ≠
        (collected maxInt64 maxInt64).sum + 1 ∧
      (collected maxInt64 maxInt64).reactiveRegions.get 1 = maxInt64 ∧
      ((collected maxInt64 maxInt64).Collect regionOnBoth).reactiveRegions.get 1 = minInt64 ∧
      ((collected maxInt64 maxInt64).Collect regionOnBoth).reactiveRegions.get 1 ≠
        (collected maxInt64 maxInt64).reactiveRegions.get 1 + 1 := by
  decide

/-- C8, amended: postcondition of `Collect`. When collecting the region takes
no counter out of the range of `int` (`noOverflow`), the sum grows by exactly
one and the count read for every store id grows by the number of occurrences of
the id among the peers of the region, so by exactly one for a store with one
peer. In every case the entry of a store without a peer is left as it was, and
`prepared` and `start` are unchanged. -/
theorem Collect_postcondition (checker : prepareChecker) (region : RegionInfo) :
    (checker.noOverflow region →
      (checker.Collect region).sum = checker.sum + 1 ∧
      (∀ n : Nat, (checker.Collect region).reactiveRegions.get n =
        checker.reactiveRegions.get n +
          ((region.GetPeers.map Peer.GetStoreId).count n : Nat)) ∧
      (∀ n : Nat, (region.GetPeers.map Peer.GetStoreId).count n = 1 →
        (checker.Collect region).reactiveRegions.get n =
          checker.reactiveRegions.get n + 1)) ∧
      (∀ n : Nat, n ∉ region.GetPeers.map Peer.GetStoreId →
        (checker.Collect region).reactiveRegions n = checker.reactiveRegions n) ∧
      (checker.Collect region).prepared = checker.prepared ∧
      (checker.Collect region).start = checker.start := by
  refine ⟨fun h => ?_, fun n hn => ?_, rfl, rfl⟩
  · obtain ⟨h1, h2⟩ := prepareChecker.Collect_of_noOverflow checker region h
    refine ⟨h1, h2, fun n hn => ?_⟩
    rw [h2 n, hn]
    simp
  · simp only [prepareChecker.Collect, foldl_incr_apply, if_neg hn]

theorem Collect_postcondition_witness :
    (collected 5 3).noOverflow regionTwice ∧
      ((collected 5 3).Collect regionTwice).sum = 6 ∧
      ((collected 5 3).Collect regionTwice).reactiveRegions.get 1 = 3 ∧
      ((collected 5 3).Collect regionTwice).reactiveRegions.get 2 = 2 ∧
      ((collected 5 3).Collect regionTwice).reactiveRegions.get 3 = 1 ∧
      ((collected 5 3).Collect regionTwice).reactiveRegions 4 = none :=
  ⟨by decide,
    ((Collect_postcondition (collected 5 3) regionTwice).1 (by decide)).1,
    (((Collect_postcondition (collected 5 3) regionTwice).1 (by decide)).2.1 1).trans
      (by decide),
    (((Collect_postcondition (collected 5 3) regionTwice).1 (by decide)).2.1 2).trans
      (by decide),
    (((Collect_postcondition (collected 5 3) regionTwice).1 (by decide)).2.2 3
      (by decide)).trans (by decide),
    ((Collect_postcondition (collected 5 3) regionTwice).2.1 4 (by decide)).trans rfl⟩

/-- C9: `Collect` is order-independent. Collecting two regions in either order
gives the same checker (sum, every entry of the map, `prepared`, `start`); hence
collecting a list of regions and collecting any permutation of it, from the
same checker, give the same checker. -/
theorem Collect_order_independent (checker : prepareChecker) :
    (∀ a b : RegionInfo, (checker.Collect a).Collect b = (checker.Collect b).Collect a) ∧
      ∀ l1 l2 : List RegionInfo, l1.Perm l2 →
        l1.foldl prepareChecker.Collect checker = l2.foldl prepareChecker.Collect checker := by
  refine ⟨fun a b => prepareChecker.Collect_comm checker a b, ?_⟩
  intro l1 l2 hperm
  exact List.Perm.foldl_eq' hperm
    (fun x _ y _ z => prepareChecker.Collect_comm z x y) checker

theorem Collect_order_independent_witness :
    [regionOnBoth, regionTwice, regionOnBoth].Perm [regionTwice, regionOnBoth, regionOnBoth] ∧
      [regionOnBoth, regionTwice, regionOnBoth].foldl prepareChecker.Collect (collected 5 3) =
        [regionTwice, regionOnBoth, regionOnBoth].foldl prepareChecker.Collect (collected 5 3) :=
  ⟨by decide, (Collect_order_independent (collected 5 3)).2 _ _ (by decide)⟩

/-- C10: stores that are neither preparing nor serving are skipped. Two views
with the same total, the same count of regions not loaded from storage, the
same preparing or serving stores and the same region counts for these give the
same result and the same checker, whatever other stores they list and whatever
the region counts of those are; and `check` gives the same result and checker on
a view and on that view with the other stores removed. -/
theorem check_skips_other_stores (cfg : Config) (now : Int) (checker : prepareChecker)
    (c1 c2 : BasicCluster)
    (htotal : c1.GetTotalRegionCount = c2.GetTotalRegionCount)
    (hnot : c1.GetClusterNotFromStorageRegionsCnt = c2.GetClusterNotFromStorageRegionsCnt)
    (hstores : c1.GetStores.filter (fun s => s.IsPreparing || s.IsServing) =
      c2.GetStores.filter (fun s => s.IsPreparing || s.IsServing))
    (hcount : ∀ store ∈ c1.GetStores, (store.IsPreparing = true ∨ store.IsServing = true) →
      c1.GetStoreRegionCount store.GetID = c2.GetStoreRegionCount store.GetID) :
    checker.check cfg now c1 = checker.check cfg now c2 ∧
      checker.check cfg now c1 = checker.check cfg now
        { c1 with GetStores := c1.GetStores.filter (fun s => s.IsPreparing || s.IsServing) } := by
  have hloop : prepareChecker.checkStores cfg checker c1 c1.GetStores =
      prepareChecker.checkStores cfg checker c2 c2.GetStores := by
    rw [prepareChecker.checkStores_filter cfg checker c1 c1.GetStores,
      prepareChecker.checkStores_filter cfg checker c2 c2.GetStores, ← hstores]
    apply prepareChecker.checkStores_congr
    intro store hstore hstatus
    exact hcount store (List.mem_of_mem_filter hstore) hstatus
  have hdrop : prepareChecker.checkStores cfg checker c1 c1.GetStores =
      prepareChecker.checkStores cfg checker
        { c1 with GetStores := c1.GetStores.filter (fun s => s.IsPreparing || s.IsServing) }
        (c1.GetStores.filter (fun s => s.IsPreparing || s.IsServing)) := by
    rw [prepareChecker.checkStores_filter cfg checker c1 c1.GetStores]
    exact prepareChecker.checkStores_congr cfg checker _ _ _ (fun _ _ _ => rfl)
  constructor
  · simp only [prepareChecker.check, htotal, hnot, hloop]
  · simp only [prepareChecker.check, hdrop]

theorem check_skips_other_stores_witness :
    (viewWithRemoved.GetStoreRegionCount removedStore.GetID = 1000 ∧
      (collected 50 2).reactiveRegions.get removedStore.GetID = 0) ∧
      ((collected 50 2).check cfgTenth 5 viewWithRemoved).1 = true ∧
      (collected 50 2).check cfgTenth 5 viewWithRemoved =
        (collected 50 2).check cfgTenth 5 (viewOf 0 [servingStore]) :=
  ⟨by decide, by decide,
    (check_skips_other_stores cfgTenth 5 (collected 50 2) viewWithRemoved
      (viewOf 0 [servingStore]) rfl rfl (by decide) (by decide)).1⟩

/-- C11: the result of `check` does not depend on the order of the stores. Two
views with the same total, the same count of regions not loaded from storage,
the same region count for every store id, and store lists that are permutations
of each other give the same boolean and the same checker. -/
theorem check_store_order (cfg : Config) (now : Int) (checker : prepareChecker)
    (c1 c2 : BasicCluster)
    (htotal : c1.GetTotalRegionCount = c2.GetTotalRegionCount)
    (hnot : c1.GetClusterNotFromStorageRegionsCnt = c2.GetClusterNotFromStorageRegionsCnt)
    (hcount : ∀ id : Nat, c1.GetStoreRegionCount id = c2.GetStoreRegionCount id)
    (hperm : c1.GetStores.Perm c2.GetStores) :
    checker.check cfg now c1 = checker.check cfg now c2 := by
  have hloop : prepareChecker.checkStores cfg checker c1 c1.GetStores =
      prepareChecker.checkStores cfg checker c2 c2.GetStores := by
    rw [Bool.eq_iff_iff, prepareChecker.checkStores_eq_true_iff,
      prepareChecker.checkStores_eq_true_iff]
    constructor
    · intro h store hmem hstatus
      rw [← hcount]
      exact h store (hperm.mem_iff.2 hmem) hstatus
    · intro h store hmem hstatus
      rw [hcount]
      exact h store (hperm.mem_iff.1 hmem) hstatus
  simp only [prepareChecker.check, htotal, hnot, hloop]

theorem check_store_order_witness :
    (viewOf 0 [servingStore, preparingStore]).GetStores.Perm
        (viewOf 0 [preparingStore, servingStore]).GetStores ∧
      ((collected 50 2).check cfgTenth 5 (viewOf 0 [servingStore, preparingStore])).1 = false ∧
      (collected 50 2).check cfgTenth 5 (viewOf 0 [servingStore, preparingStore]) =
        (collected 50 2).check cfgTenth 5 (viewOf 0 [preparingStore, servingStore]) :=
  ⟨by decide, by decide,
    check_store_order cfgTenth 5 (collected 50 2) (viewOf 0 [servingStore, preparingStore])
      (viewOf 0 [preparingStore, servingStore]) rfl rfl (fun _ => rfl) (by decide)⟩

/-- C12 as stated fails at the end of the range of `int`: on a checker whose sum
and whose count for store 1 are `maxInt64`, a `Collect` call leaves both at
`minInt64`, below their values before the call. -/
theorem counters_decrease_at_maxInt64 :
    (step cfgTenth (collected maxInt64 maxInt64) (Call.Collect regionOnBoth)).1.sum <
        (collected maxInt64 maxInt64).sum ∧
      (step cfgTenth (collected maxInt64 maxInt64)
          (Call.Collect regionOnBoth)).1.reactiveRegions.get 1 <
        (collected maxInt64 maxInt64).reactiveRegions.get 1 := by
  decide

/-- C12, amended: the counters never decrease short of overflow. For every
checker and every single call (`Collect`, `check`, `IsPrepared`, `SetPrepared`,
`GetSum`), if the call, when it is a `Collect`, takes no counter out of the
range of `int` (`noOverflow`), the sum afterwards is at least the sum before and
the count read for every store id afterwards is at least the count read before
(an absent entry reads 0). In every case every key of the map before is still a
key afterwards. -/
theorem counters_monotone (cfg : Config) (checker : prepareChecker) (call : Call) :
    ((∀ region : RegionInfo, call = Call.Collect region → checker.noOverflow region) →
      checker.sum ≤ (step cfg checker call).1.sum ∧
      ∀ n : Nat, checker.reactiveRegions.get n ≤
        (step cfg checker call).1.reactiveRegions.get n) ∧
      (∀ n : Nat, (checker.reactiveRegions n).isSome = true →
        ((step cfg checker call).1.reactiveRegions n).isSome = true) := by
  cases call with
  | Collect region =>
    refine ⟨fun h => ?_, fun n hn => ?_⟩
    · obtain ⟨h1, h2⟩ := prepareChecker.Collect_of_noOverflow checker region (h region rfl)
      refine ⟨?_, fun n => ?_⟩
      · simp only [step, h1]
        omega
      · simp only [step, h2 n]
        omega
    · simp only [step, prepareChecker.Collect, foldl_incr_apply]
      split
      · rfl
      · exact hn
  | check now c =>
    rcases prepareChecker.check_cases cfg now checker c with h | ⟨_, h⟩ <;>
      simp [step, h]
  | IsPrepared => simp [step]
  | SetPrepared => simp [step, prepareChecker.SetPrepared]
  | GetSum => simp [step]

theorem counters_monotone_witness :
    (collected 5 3).noOverflow regionTwice ∧
      (collected 5 3).sum ≤ (step cfgTenth (collected 5 3) (Call.Collect regionTwice)).1.sum ∧
      ((collected 5 3).reactiveRegions 1).isSome = true ∧
      ((step cfgTenth (collected 5 3) (Call.Collect regionTwice)).1.reactiveRegions 1).isSome
        = true :=
  ⟨by decide,
    ((counters_monotone cfgTenth (collected 5 3) (Call.Collect regionTwice)).1
      (fun region hr => by
        cases hr
        decide)).1,
    rfl,
    (counters_monotone cfgTenth (collected 5 3) (Call.Collect regionTwice)).2 1 rfl⟩

/-- C13: a freshly constructed checker has an empty map, sum 0 and the flag not
set, and keeps the clock reading as `start`: `IsPrepared` returns false on it,
`GetSum` returns 0, and every store id reads a count of 0. -/
theorem newPrepareChecker_fresh (now : Int) :
    (∀ n : Nat, (newPrepareChecker now).reactiveRegions n = none) ∧
      (newPrepareChecker now).sum = 0 ∧
      (newPrepareChecker now).prepared = false ∧
      (newPrepareChecker now).start = now ∧
      (newPrepareChecker now).IsPrepared = false ∧
      (newPrepareChecker now).GetSum = 0 ∧
      ∀ n : Nat, (newPrepareChecker now).reactiveRegions.get n = 0 :=
  ⟨fun _ => rfl, rfl, rfl, rfl, rfl, rfl, fun _ => rfl⟩

/-- C17: the only field `check` can change is `prepared`. The checker after
`check` has the same sum, the same map (same keys, same counts) and the same
`start` as before, and its flag differs from the flag before only by going from
false to true. -/
theorem check_changes_only_prepared (cfg : Config) (now : Int) (checker : prepareChecker)
    (c : BasicCluster) :
    (checker.check cfg now c).2.sum = checker.sum ∧
      (checker.check cfg now c).2.reactiveRegions = checker.reactiveRegions ∧
      (checker.check cfg now c).2.start = checker.start ∧
      ((checker.check cfg now c).2.prepared ≠ checker.prepared →
        checker.prepared = false ∧ (checker.check cfg now c).2.prepared = true) := by
  rcases prepareChecker.check_cases cfg now checker c with h | ⟨_, h⟩
  · rw [h]
    refine ⟨rfl, rfl, rfl, ?_⟩
    intro hne
    rcases hp : checker.prepared with _ | _
    · exact ⟨rfl, rfl⟩
    · exact absurd hp.symm hne
  · rw [h]
    exact ⟨rfl, rfl, rfl, fun hne => absurd rfl hne⟩

theorem check_changes_only_prepared_witness :
    ((collected 50 2).check cfgTenth 5 (viewOf 0 [servingStore, preparingStore])).2.reactiveRegions
        = (collected 50 2).reactiveRegions ∧
      ((collected 50 2).check cfgTenth 5 (viewOf 0 [servingStore])).2.prepared = true :=
  ⟨(check_changes_only_prepared cfgTenth 5 (collected 50 2)
      (viewOf 0 [servingStore, preparingStore])).2.1,
    ((check_changes_only_prepared cfgTenth 5 (collected 50 2) (viewOf 0 [servingStore])).2.2.2
      (by decide)).2⟩

/-- C18: the value `check` returns is the flag of the checker it leaves. For
every checker, view and clock reading, `check` returns true exactly when
`prepared` is true afterwards, so `IsPrepared` called right after returns the
same boolean; and a `check` that returns false leaves the checker as it was. -/
theorem check_returns_flag (cfg : Config) (now : Int) (checker : prepareChecker)
    (c : BasicCluster) :
    ((checker.check cfg now c).1 = true ↔ (checker.check cfg now c).2.prepared = true) ∧
      (checker.check cfg now c).2.IsPrepared = (checker.check cfg now c).1 ∧
      ((checker.check cfg now c).1 = false → (checker.check cfg now c).2 = checker) := by
  rcases prepareChecker.check_cases cfg now checker c with h | ⟨hp, h⟩
  · rw [h]
    simp [prepareChecker.IsPrepared]
  · rw [h]
    simp [prepareChecker.IsPrepared, hp]

theorem check_returns_flag_witness :
    ((collected 50 1).check cfgTenth 5 (viewOf 0 [servingStore])).1 = false ∧
      ((collected 50 1).check cfgTenth 5 (viewOf 0 [servingStore])).2 = collected 50 1 :=
  ⟨by decide, (check_returns_flag cfgTenth 5 (collected 50 1) (viewOf 0 [servingStore])).2.2
    (by decide)⟩

/-- C15: the code at the boundary of the per-store test. With factor `0.1`, a
serving store holding 20 regions of which 2 are collected (and with factor
`0.9`, a serving store holding 10 regions of which 9 are collected), `check`
called on a checker that is not prepared and not timed out, with no region
missing from storage, returns true although the collected count is not more
than the region count of the store times the factor. -/
theorem check_true_at_store_threshold :
    (collected 50 2).prepared = false ∧
      timeSince 5 (collected 50 2).start ≤ cfgTenth.collectTimeout ∧
      F64.gt (F64.ofInt (viewOf 0 [servingStore]).GetClusterNotFromStorageRegionsCnt)
        (F64.mul (F64.ofInt (viewOf 0 [servingStore]).GetTotalRegionCount)
          cfgTenth.collectFactor) = false ∧
      ((collected 50 2).check cfgTenth 5 (viewOf 0 [servingStore])).1 = true ∧
      F64.gt (F64.ofInt ((collected 50 2).reactiveRegions.get servingStore.GetID))
        (F64.mul (F64.ofInt ((viewOf 0 [servingStore]).GetStoreRegionCount servingStore.GetID))
          cfgTenth.collectFactor) = false ∧
      ((collected 50 9).check cfgNineTenths 5 viewOfTen).1 = true ∧
      F64.gt (F64.ofInt ((collected 50 9).reactiveRegions.get servingStore.GetID))
        (F64.mul (F64.ofInt (viewOfTen.GetStoreRegionCount servingStore.GetID))
          cfgNineTenths.collectFactor) = false := by
  decide

/-- C16: the code at the boundary of the global test. With factor `0.1`, 100
regions in total and a sum of 10 (and with factor `0.9`, 10 regions in total
and a sum of 9), `check` called on a checker that is not prepared and not timed
out, with no region missing from storage, returns true although the sum is not
more than the total region count times the factor. -/
theorem check_true_at_sum_threshold :
    (collected 10 2).prepared = false ∧
      timeSince 5 (collected 10 2).start ≤ cfgTenth.collectTimeout ∧
      F64.gt (F64.ofInt (viewOf 0 [servingStore]).GetClusterNotFromStorageRegionsCnt)
        (F64.mul (F64.ofInt (viewOf 0 [servingStore]).GetTotalRegionCount)
          cfgTenth.collectFactor) = false ∧
      ((collected 10 2).check cfgTenth 5 (viewOf 0 [servingStore])).1 = true ∧
      F64.gt (F64.ofInt (collected 10 2).sum)
        (F64.mul (F64.ofInt (viewOf 0 [servingStore]).GetTotalRegionCount)
          cfgTenth.collectFactor) = false ∧
      ((collected 9 9).check cfgNineTenths 5 viewOfTen).1 = true ∧
      F64.gt (F64.ofInt (collected 9 9).sum)
        (F64.mul (F64.ofInt viewOfTen.GetTotalRegionCount) cfgNineTenths.collectFactor)
          = false := by
  decide

/-- C20: counts in reachable states. After any sequence of `Collect`, `check`,
`IsPrepared`, `SetPrepared` and `GetSum` calls on a freshly constructed checker
that makes at most `maxInt64` `Collect` calls and collects at most `maxInt64`
peers in all (no execution can make more), the sum is the number of `Collect`
calls made; the total of the counts over any finite set of store ids that
contains every key of the map is the total length of the peer lists collected;
and if no collected region lists a store twice among its peers, the count read
for every store id is at most the sum. -/
theorem reachable_counts (cfg : Config) (now : Int) (calls : List Call)
    (hcalls : ((collectedRegions calls).length : Int) ≤ maxInt64)
    (hpeers : ((((collectedRegions calls).map (fun r => r.GetPeers.length)).sum : Nat) : Int)
      ≤ maxInt64) :
    (run cfg (newPrepareChecker now) calls).1.sum = (collectedRegions calls).length ∧
      (∀ S : Finset Nat,
        (∀ n : Nat, ((run cfg (newPrepareChecker now) calls).1.reactiveRegions n).isSome = true →
          n ∈ S) →
        Finset.sum S (fun n => (run cfg (newPrepareChecker now) calls).1.reactiveRegions.get n) =
          (((collectedRegions calls).map (fun r => r.GetPeers.length)).sum : Nat)) ∧
      ((∀ r ∈ collectedRegions calls, (r.GetPeers.map Peer.GetStoreId).Nodup) →
        ∀ n : Nat, (run cfg (newPrepareChecker now) calls).1.reactiveRegions.get n ≤
          (run cfg (newPrepareChecker now) calls).1.sum) := by
  obtain ⟨h1, h2, h3⟩ := run_counts cfg (newPrepareChecker now) calls
  have hmin : minInt64 ≤ 0 := by decide
  have hsum : (run cfg (newPrepareChecker now) calls).1.sum = (collectedRegions calls).length := by
    have h0 : (newPrepareChecker now).sum = 0 := rfl
    rw [h1 (by rw [h0]; exact hmin) (by rw [h0]; omega), h0]
    simp
  have hget : ∀ n : Nat,
      ((((collectedRegions calls).map
        (fun r => (r.GetPeers.map Peer.GetStoreId).count n)).sum : Nat) : Int) ≤ maxInt64 →
      (run cfg (newPrepareChecker now) calls).1.reactiveRegions.get n =
        (((collectedRegions calls).map
          (fun r => (r.GetPeers.map Peer.GetStoreId).count n)).sum : Nat) := by
    intro n hn
    have h0 : (newPrepareChecker now).reactiveRegions.get n = 0 := rfl
    rw [h2 n (by rw [h0]; exact hmin) (by rw [h0]; omega), h0]
    simp
  refine ⟨hsum, ?_, ?_⟩
  · intro S hS
    have hget1 : ∀ n : Nat, (run cfg (newPrepareChecker now) calls).1.reactiveRegions.get n =
        (((collectedRegions calls).map
          (fun r => (r.GetPeers.map Peer.GetStoreId).count n)).sum : Nat) := by
      intro n
      apply hget n
      have := sum_count_le_sum_length (collectedRegions calls) n
      omega
    simp only [hget1]
    have hkeys : ∀ r ∈ collectedRegions calls, ∀ n ∈ r.GetPeers.map Peer.GetStoreId, n ∈ S := by
      intro r hr n hn
      apply hS
      have hget2 := hget1 n
      have hle : (r.GetPeers.map Peer.GetStoreId).count n ≤
          ((collectedRegions calls).map
            (fun r => (r.GetPeers.map Peer.GetStoreId).count n)).sum :=
        List.le_sum_of_mem (List.mem_map.2 ⟨r, hr, rfl⟩)
      have hpos : 0 < (r.GetPeers.map Peer.GetStoreId).count n := List.count_pos_iff.2 hn
      rcases hopt : (run cfg (newPrepareChecker now) calls).1.reactiveRegions n with _ | v
      · rw [RegionMap.get, hopt] at hget2
        change (0 : Int) = _ at hget2
        omega
      · rfl
    clear hS h1 h2 h3 hsum hget hget1 hcalls hpeers
    generalize collectedRegions calls = regions at hkeys ⊢
    induction regions with
    | nil => simp
    | cons r rs ih =>
      have ih1 := ih (fun r1 hr1 => hkeys r1 (List.mem_cons_of_mem _ hr1))
      have hr := sum_count_eq_length (r.GetPeers.map Peer.GetStoreId) S
        (hkeys r (List.mem_cons_self _ _))
      simp only [List.map_cons, List.sum_cons, Nat.cast_add, Finset.sum_add_distrib, ih1]
      rw [← Nat.cast_sum, hr]
      simp
  · intro hnodup n
    have hle := sum_count_le_length_of_nodup (collectedRegions calls) n hnodup
    rw [hget n (by omega), hsum]
    exact_mod_cast hle

theorem reachable_counts_witness :
    (((collectedRegions collectingCalls).length : Int) ≤ maxInt64 ∧
      ((((collectedRegions collectingCalls).map (fun r => r.GetPeers.length)).sum : Nat) : Int)
        ≤ maxInt64 ∧
      ∀ r ∈ collectedRegions collectingCalls, (r.GetPeers.map Peer.GetStoreId).Nodup) ∧
      (run cfgTenth (newPrepareChecker 0) collectingCalls).1.sum = 2 ∧
      (run cfgTenth (newPrepareChecker 0) collectingCalls).1.reactiveRegions.get 2 = 2 ∧
      ∀ n : Nat, (run cfgTenth (newPrepareChecker 0) collectingCalls).1.reactiveRegions.get n ≤
        (run cfgTenth (newPrepareChecker 0) collectingCalls).1.sum :=
  ⟨⟨by decide, by decide, by decide⟩,
    (reachable_counts cfgTenth 0 collectingCalls (by decide) (by decide)).1.trans (by decide),
    by decide,
    (reachable_counts cfgTenth 0 collectingCalls (by decide) (by decide)).2.2 (by decide)⟩

/-- C19 as stated fails at the end of the range of `int`: on a checker whose sum
is `maxInt64`, with factor `0.9` and a cluster without regions or stores,
`check` returns true, and after one more `Collect`, which leaves the sum at
`minInt64`, `check` returns false. -/
theorem check_false_after_wrap :
    ((collected maxInt64 0).check cfgNineTenths 5 emptyView).1 = true ∧
      ((collected maxInt64 0).Collect regionOnBoth).sum = minInt64 ∧
      (((collected maxInt64 0).Collect regionOnBoth).check cfgNineTenths 5 emptyView).1
        = false := by
  decide

/-- C19, amended: collecting more never closes the gate short of overflow. For
a fixed view and clock reading and any factor, if `check` returns true on a
checker, it returns true on every checker with the same `start` and flag, a sum
at least as large and a count at least as large for every store id; in
particular `check` returns true after one more `Collect` that takes no counter
out of the range of `int` (`noOverflow`). -/
theorem check_more_collected (cfg : Config) (now : Int) (c : BasicCluster)
    (s : prepareChecker) (h : (s.check cfg now c).1 = true) :
    (∀ t : prepareChecker, t.start = s.start → t.prepared = s.prepared → s.sum ≤ t.sum →
      (∀ n : Nat, s.reactiveRegions.get n ≤ t.reactiveRegions.get n) →
      (t.check cfg now c).1 = true) ∧
      ∀ region : RegionInfo, s.noOverflow region →
        ((s.Collect region).check cfg now c).1 = true := by
  constructor
  · intro t hstart hprep hsum hmap
    exact prepareChecker.check_true_mono cfg now c s t hstart hprep hsum hmap h
  · intro region hno
    obtain ⟨h1, h2⟩ := prepareChecker.Collect_of_noOverflow s region hno
    apply prepareChecker.check_true_mono cfg now c s (s.Collect region) rfl rfl _ _ h
    · rw [h1]
      omega
    · intro n
      rw [h2 n]
      omega

theorem check_more_collected_witness :
    ((collected 50 2).check cfgTenth 5 (viewOf 0 [servingStore])).1 = true ∧
      ((collected 70 3).check cfgTenth 5 (viewOf 0 [servingStore])).1 = true ∧
      (collected 50 2).noOverflow regionOnBoth ∧
      (((collected 50 2).Collect regionOnBoth).check cfgTenth 5 (viewOf 0 [servingStore])).1
        = true :=
  ⟨by decide,
    (check_more_collected cfgTenth 5 (viewOf 0 [servingStore]) (collected 50 2)
      (by decide)).1 (collected 70 3) rfl rfl (by decide)
      (fun n => by
        by_cases hn : n = 1
        · subst hn; decide
        · simp [collected, RegionMap.get, hn]),
    by decide,
    (check_more_collected cfgTenth 5 (viewOf 0 [servingStore]) (collected 50 2)
      (by decide)).2 regionOnBoth (by decide)⟩

end Schedule
